import Mathlib

/-!
# Verification of the road_to_billions trading-strategy engine

Shallow embedding of the position-simulation engine of the repository
(`wayne/strategy.py`, `src/road_to_billions/strategy.py`, `wayne/wayne.py`,
`wayne/models.py`) using exact rational arithmetic (`ℚ`) in place of Python
floats.  Prices, capital and fees are rationals; OHLCV bars are records; the
bar-by-bar loops become folds of explicit step functions over lists of bars.
-/

set_option maxHeartbeats 1000000
set_option maxRecDepth 8000

/-- One OHLCV bar, together with the Buy/Sell signal columns the order
generators add.  `openTime` plays the role of the pandas index
(`row.name`), in epoch milliseconds. -/
structure Bar where
  openTime : Int
  openPrice : ℚ
  highPrice : ℚ
  lowPrice : ℚ
  closePrice : ℚ
  buy : Bool
  sell : Bool
deriving DecidableEq

/-- `models.InvestResult` (wayne/models.py): the immutable result record of a
strategy run.  Field names follow the source. -/
structure InvestResult where
  capital_start : ℚ
  capital_end : ℚ
  positions_end : ℚ
  drawdown : ℚ
  platform_fees : ℚ
  capital_curve : List ℚ
deriving DecidableEq

/-- `InvestResult.profit` (wayne/models.py line 48). -/
def InvestResult.profit (r : InvestResult) : ℚ :=
  r.capital_end - r.capital_start

/-- The pydantic field constraints of `models.InvestResult`
(`capital_start : PositiveFloat`, `positions_end : NonNegativeFloat`,
`drawdown : Between0And1`): validation performed when the record is built. -/
def InvestResult.Valid (r : InvestResult) : Prop :=
  0 < r.capital_start ∧ 0 ≤ r.positions_end ∧ 0 ≤ r.drawdown ∧ r.drawdown ≤ 1

/-- Loop state of `wayne/strategy.py`'s `TrailingStopStrategy.apply` (and,
with the stop fields unused, of its `SimpleStrategy.apply`): the local
variables of the simulation loop. -/
structure TSState where
  capital : ℚ
  positions : ℚ
  platformFees : ℚ
  peak : ℚ
  drawdown : ℚ
  stopLoss : ℚ
  trailingStop : ℚ
  currentCapital : ℚ
  capitalCurve : List ℚ
deriving DecidableEq

/-- Initial loop state: `current_capital = capital = capital_start`,
`peak = capital`, everything else zero / empty. -/
def TSState.init (capitalStart : ℚ) : TSState :=
  ⟨capitalStart, 0, 0, capitalStart, 0, 0, 0, capitalStart, []⟩

/-- The mark-to-market tail of every loop iteration
(wayne/strategy.py lines 108–112): record current capital, update the running
peak and the running max drawdown, append to the capital curve. -/
def TSState.markToMarket (s : TSState) (closePrice : ℚ) : TSState :=
  let cc := if s.positions = 0 then s.capital else s.positions * closePrice
  let pk := max cc s.peak
  { s with currentCapital := cc, peak := pk,
           drawdown := max ((pk - cc) / pk) s.drawdown,
           capitalCurve := s.capitalCurve ++ [cc] }

/-- The transition part of one iteration of
`wayne/strategy.py TrailingStopStrategy.apply` (lines 87–106): entry when
FLAT and Buy, else ratchet when the bar's high exceeds the trailing trigger,
else stop-loss exit when the bar's low is below the stop. -/
def TrailingStopStrategy.trade (slPct tsPct : ℚ) (s : TSState) (b : Bar) : TSState :=
  if s.positions = 0 then
    if b.buy ∧ 0 < s.capital then
      let entryPrice := b.closePrice
      let positions0 := s.capital / entryPrice
      { s with platformFees := s.platformFees + positions0 * entryPrice * (1 / 1000),
               positions := positions0 * (999 / 1000),
               capital := 0,
               stopLoss := entryPrice * (1 - slPct),
               trailingStop := entryPrice * (1 + tsPct) }
    else s
  else if s.trailingStop < b.highPrice then
    { s with stopLoss := b.highPrice * (1 - slPct),
             trailingStop := b.highPrice * (1 + tsPct) }
  else if b.lowPrice < s.stopLoss then
    let cap0 := s.positions * s.stopLoss
    { s with capital := cap0 * (999 / 1000),
             platformFees := s.platformFees + cap0 * (1 / 1000),
             positions := 0 }
  else s

/-- One full iteration of the `wayne` trailing-stop loop: transitions, then
mark-to-market bookkeeping at the bar's close. -/
def TrailingStopStrategy.step (slPct tsPct : ℚ) (s : TSState) (b : Bar) : TSState :=
  (TrailingStopStrategy.trade slPct tsPct s b).markToMarket b.closePrice

/-- `wayne/strategy.py TrailingStopStrategy.apply`: fold the step over the
series and package the `InvestResult`. -/
def TrailingStopStrategy.apply (slPct tsPct : ℚ) (data : List Bar)
    (capitalStart : ℚ) : InvestResult :=
  let fin := data.foldl (TrailingStopStrategy.step slPct tsPct) (TSState.init capitalStart)
  ⟨capitalStart, fin.currentCapital, fin.positions, fin.drawdown,
   fin.platformFees, fin.capitalCurve⟩

/-- The transition part of one iteration of
`wayne/strategy.py SimpleStrategy.apply` (lines 132–145): entry when FLAT and
Buy, exit at the bar's close as soon as Buy is false. -/
def SimpleStrategy.trade (s : TSState) (b : Bar) : TSState :=
  if s.positions = 0 then
    if b.buy ∧ 0 < s.capital then
      let entryPrice := b.closePrice
      let positions0 := s.capital / entryPrice
      { s with platformFees := s.platformFees + positions0 * entryPrice * (1 / 1000),
               positions := positions0 * (999 / 1000),
               capital := 0 }
    else s
  else if ¬ b.buy then
    let cap0 := s.positions * b.closePrice
    { s with capital := cap0 * (999 / 1000),
             platformFees := s.platformFees + cap0 * (1 / 1000),
             positions := 0 }
  else s

/-- One full iteration of the `wayne` simple-strategy loop. -/
def SimpleStrategy.step (s : TSState) (b : Bar) : TSState :=
  (SimpleStrategy.trade s b).markToMarket b.closePrice

/-- `wayne/strategy.py SimpleStrategy.apply`. -/
def SimpleStrategy.apply (data : List Bar) (capitalStart : ℚ) : InvestResult :=
  let fin := data.foldl SimpleStrategy.step (TSState.init capitalStart)
  ⟨capitalStart, fin.currentCapital, fin.positions, fin.drawdown,
   fin.platformFees, fin.capitalCurve⟩

/-- The transition part of one iteration of
`src/road_to_billions/strategy.py SimpleStrategy.apply` (lines 142–156):
identical to the wayne variant except that the exit fires on the Sell
signal. -/
def RTB.SimpleStrategy.trade (s : TSState) (b : Bar) : TSState :=
  if s.positions = 0 then
    if b.buy ∧ 0 < s.capital then
      let entryPrice := b.closePrice
      let positions0 := s.capital / entryPrice
      { s with platformFees := s.platformFees + positions0 * entryPrice * (1 / 1000),
               positions := positions0 * (999 / 1000),
               capital := 0 }
    else s
  else if b.sell then
    let cap0 := s.positions * b.closePrice
    { s with capital := cap0 * (999 / 1000),
             platformFees := s.platformFees + cap0 * (1 / 1000),
             positions := 0 }
  else s

/-- One full iteration of the road_to_billions simple-strategy loop. -/
def RTB.SimpleStrategy.step (s : TSState) (b : Bar) : TSState :=
  (RTB.SimpleStrategy.trade s b).markToMarket b.closePrice

/-- `src/road_to_billions/strategy.py SimpleStrategy.apply`. -/
def RTB.SimpleStrategy.apply (data : List Bar) (capitalStart : ℚ) : InvestResult :=
  let fin := data.foldl RTB.SimpleStrategy.step (TSState.init capitalStart)
  ⟨capitalStart, fin.currentCapital, fin.positions, fin.drawdown,
   fin.platformFees, fin.capitalCurve⟩

/-- Loop state of the mark-to-market loop of `NoStrategy.apply`
(identical in both snapshots): running peak, running max drawdown, capital
curve. -/
structure MarkState where
  peak : ℚ
  drawdown : ℚ
  capitalCurve : List ℚ
deriving DecidableEq

/-- The body of the mark-to-market loop of `NoStrategy.apply` for a fixed
(post-fee) position size. -/
def NoStrategy.markStep (positions : ℚ) (s : MarkState) (row : Bar) : MarkState :=
  let cc := positions * row.closePrice
  let pk := max cc s.peak
  ⟨pk, max ((pk - cc) / pk) s.drawdown, s.capitalCurve ++ [cc]⟩

/-- `NoStrategy.apply` (wayne/strategy.py lines 161–189 and, identically,
src/road_to_billions/strategy.py lines 172–200): forced entry at the first
bar's close, mark-to-market over every bar, forced exit at the last bar's
close.  `data.iloc[0]` on an empty frame raises, hence the `Option`. -/
def NoStrategy.apply (data : List Bar) (capitalStart : ℚ) : Option InvestResult :=
  match data with
  | [] => none
  | first :: rest =>
    let entryPrice := first.closePrice
    let positions0 := capitalStart / entryPrice
    let feesIn := positions0 * entryPrice * (1 / 1000)
    let positions := positions0 * (999 / 1000)
    let fin := (first :: rest).foldl (NoStrategy.markStep positions) ⟨capitalStart, 0, []⟩
    let outputPrice := (rest.getLastD first).closePrice
    let cap0 := positions * outputPrice
    some ⟨capitalStart, cap0 * (999 / 1000), positions, fin.drawdown,
          feesIn + cap0 * (1 / 1000), fin.capitalCurve⟩

/-- Loop state of the dual-resolution
`src/road_to_billions/strategy.py TrailingStopStrategy.apply`: the wayne
state plus the coarse-series cursor, modelled as the list of coarse (daily)
bars not yet consumed (`day`, `self._day_data[day:]`). -/
structure DualState where
  capital : ℚ
  positions : ℚ
  platformFees : ℚ
  peak : ℚ
  drawdown : ℚ
  stopLoss : ℚ
  currentCapital : ℚ
  capitalCurve : List ℚ
  days : List Bar
deriving DecidableEq

/-- First block of one hourly iteration of the dual-resolution strategy
(src/road_to_billions/strategy.py lines 96–103): while LONG, ratchet the
stop to `max(stop_loss, close × (1 − stop_loss_pct))` and exit at the
stop when the hourly close is below it. -/
def RTB.TrailingStopStrategy.stopPhase (slPct : ℚ) (s : DualState) (row : Bar) : DualState :=
  if s.positions ≠ 0 then
    let sl := max s.stopLoss (row.closePrice * (1 - slPct))
    if row.closePrice < sl then
      let cap0 := s.positions * sl
      { s with stopLoss := sl,
               capital := cap0 * (999 / 1000),
               platformFees := s.platformFees + cap0 * (1 / 1000),
               positions := 0 }
    else { s with stopLoss := sl }
  else s

/-- The entry block of the dual-resolution strategy (lines 106–115): when
FLAT and the daily bar says Buy with cash available, buy at the daily
close, pay the entry fee and set the initial stop. -/
def RTB.TrailingStopStrategy.entryStep (slPct : ℚ) (s : DualState) (dayRow : Bar) : DualState :=
  if s.positions = 0 then
    if dayRow.buy ∧ 0 < s.capital then
      let entryPrice := dayRow.closePrice
      let positions0 := s.capital / entryPrice
      { s with platformFees := s.platformFees + positions0 * entryPrice * (1 / 1000),
               positions := positions0 * (999 / 1000),
               capital := 0,
               stopLoss := entryPrice * (1 - slPct) }
    else s
  else s

/-- Second block of one hourly iteration (lines 104–123): when the hourly
timestamp equals the current daily bar's timestamp, evaluate the daily Buy
signal (entry only), advance the daily cursor, and do the per-day
mark-to-market bookkeeping. -/
def RTB.TrailingStopStrategy.dayPhase (slPct : ℚ) (s : DualState) (row : Bar) : DualState :=
  match s.days with
  | [] => s
  | dayRow :: rest =>
    if row.openTime = dayRow.openTime then
      let s2 := RTB.TrailingStopStrategy.entryStep slPct s dayRow
      let cc := if s2.positions = 0 then s2.capital else s2.positions * dayRow.closePrice
      let pk := max cc s2.peak
      { s2 with days := rest, currentCapital := cc, peak := pk,
                drawdown := max ((pk - cc) / pk) s2.drawdown,
                capitalCurve := s2.capitalCurve ++ [cc] }
    else s

/-- One full hourly iteration of the dual-resolution strategy. -/
def RTB.TrailingStopStrategy.step (slPct : ℚ) (s : DualState) (row : Bar) : DualState :=
  RTB.TrailingStopStrategy.dayPhase slPct (RTB.TrailingStopStrategy.stopPhase slPct s row) row

/-- Initial loop state of the dual-resolution strategy. -/
def DualState.init (capitalStart : ℚ) (dayData : List Bar) : DualState :=
  ⟨capitalStart, 0, 0, capitalStart, 0, 0, capitalStart, [], dayData⟩

/-- `src/road_to_billions/strategy.py TrailingStopStrategy.apply`
(lines 83–126): fold over the hourly series; note that the returned record's
`drawdown` field is the literal `0` of line 125, not the running maximum the
loop computed (`trailing_stop_pct` is accepted but never read). -/
def RTB.TrailingStopStrategy.apply (slPct _tsPct : ℚ) (dayData hourData : List Bar)
    (capitalStart : ℚ) : InvestResult :=
  let fin := hourData.foldl (RTB.TrailingStopStrategy.step slPct)
    (DualState.init capitalStart dayData)
  ⟨capitalStart, fin.currentCapital, fin.positions, 0,
   fin.platformFees, fin.capitalCurve⟩

/-- Ranking relation of `evaluate_symbols` (wayne/wayne.py line 141):
`results.sort(key=lambda result: result[1].profit, reverse=True)` sorts by
profit in descending order. -/
def profitGe (a b : String × InvestResult) : Prop :=
  b.2.profit ≤ a.2.profit

instance : DecidableRel profitGe := fun a b =>
  inferInstanceAs (Decidable (b.2.profit ≤ a.2.profit))

instance : IsTotal (String × InvestResult) profitGe :=
  ⟨fun a b => le_total b.2.profit a.2.profit⟩

instance : IsTrans (String × InvestResult) profitGe :=
  ⟨fun _ _ _ h1 h2 => le_trans h2 h1⟩

/-- `evaluate_symbols` ranking (wayne/wayne.py line 141): Python `list.sort`
is a stable sort, modelled by the stable `List.insertionSort`. -/
def evaluateSymbolsRank (results : List (String × InvestResult)) :
    List (String × InvestResult) :=
  List.insertionSort profitGe results

/-- Modelled from the spec: the ordering the spec claims for batch
evaluation — profit descending, ties broken by symbol name ascending. -/
def specRankRel (a b : String × InvestResult) : Prop :=
  b.2.profit < a.2.profit ∨ (a.2.profit = b.2.profit ∧ a.1 ≤ b.1)

instance : DecidableRel specRankRel := fun a b =>
  inferInstanceAs (Decidable (b.2.profit < a.2.profit ∨ (a.2.profit = b.2.profit ∧ a.1 ≤ b.1)))

/-- Modelled from the spec: stable sort by `specRankRel` (profit descending,
ties by symbol ascending). -/
def specRank (results : List (String × InvestResult)) :
    List (String × InvestResult) :=
  List.insertionSort specRankRel results

/-! ## Helper lemmas about the step functions -/

/-- Mark-to-market does not touch positions, cash or fees. -/
theorem TSState.markToMarket_positions (s : TSState) (c : ℚ) :
    (s.markToMarket c).positions = s.positions := rfl

theorem TSState.markToMarket_capital (s : TSState) (c : ℚ) :
    (s.markToMarket c).capital = s.capital := rfl

theorem TSState.markToMarket_platformFees (s : TSState) (c : ℚ) :
    (s.markToMarket c).platformFees = s.platformFees := rfl

theorem TSState.markToMarket_curve_length (s : TSState) (c : ℚ) :
    (s.markToMarket c).capitalCurve.length = s.capitalCurve.length + 1 := by
  simp [TSState.markToMarket]

/-- Generic fold fact: if a numeric measure of the state grows by one at
every step, after the fold it has grown by the list's length. -/
theorem foldl_measure_succ {α σ : Type} (f : σ → α → σ) (len : σ → ℕ)
    (h : ∀ s a, len (f s a) = len s + 1) :
    ∀ (l : List α) (s : σ), len (l.foldl f s) = len s + l.length := by
  intro l
  induction l with
  | nil => intro s; simp
  | cons a l ih => intro s; simp [ih, h s a]; omega

/-- Generic fold fact: a measure preserved by every step is preserved by the
fold. -/
theorem foldl_measure_const {α σ : Type} (f : σ → α → σ) (len : σ → ℕ)
    (h : ∀ s a, len (f s a) = len s) :
    ∀ (l : List α) (s : σ), len (l.foldl f s) = len s := by
  intro l
  induction l with
  | nil => intro s; simp
  | cons a l ih => intro s; simp [ih, h s a]

theorem trailing_trade_curve (slPct tsPct : ℚ) (s : TSState) (b : Bar) :
    (TrailingStopStrategy.trade slPct tsPct s b).capitalCurve = s.capitalCurve := by
  unfold TrailingStopStrategy.trade
  split_ifs <;> rfl

theorem simple_trade_curve (s : TSState) (b : Bar) :
    (SimpleStrategy.trade s b).capitalCurve = s.capitalCurve := by
  unfold SimpleStrategy.trade
  split_ifs <;> rfl

theorem rtb_simple_trade_curve (s : TSState) (b : Bar) :
    (RTB.SimpleStrategy.trade s b).capitalCurve = s.capitalCurve := by
  unfold RTB.SimpleStrategy.trade
  split_ifs <;> rfl

theorem trailing_step_curve_length (slPct tsPct : ℚ) (s : TSState) (b : Bar) :
    (TrailingStopStrategy.step slPct tsPct s b).capitalCurve.length
      = s.capitalCurve.length + 1 := by
  unfold TrailingStopStrategy.step
  rw [TSState.markToMarket_curve_length, trailing_trade_curve]

theorem simple_step_curve_length (s : TSState) (b : Bar) :
    (SimpleStrategy.step s b).capitalCurve.length = s.capitalCurve.length + 1 := by
  unfold SimpleStrategy.step
  rw [TSState.markToMarket_curve_length, simple_trade_curve]

theorem rtb_simple_step_curve_length (s : TSState) (b : Bar) :
    (RTB.SimpleStrategy.step s b).capitalCurve.length = s.capitalCurve.length + 1 := by
  unfold RTB.SimpleStrategy.step
  rw [TSState.markToMarket_curve_length, rtb_simple_trade_curve]

/-- The hourly stop-loss block of the dual-resolution strategy does not touch
the daily cursor. -/
theorem RTB.TrailingStopStrategy.stopPhase_days (slPct : ℚ) (s : DualState) (b : Bar) :
    (RTB.TrailingStopStrategy.stopPhase slPct s b).days = s.days := by
  simp only [RTB.TrailingStopStrategy.stopPhase]
  split_ifs <;> rfl

/-- The hourly stop-loss block of the dual-resolution strategy does not touch
the capital curve. -/
theorem RTB.TrailingStopStrategy.stopPhase_curve (slPct : ℚ) (s : DualState) (b : Bar) :
    (RTB.TrailingStopStrategy.stopPhase slPct s b).capitalCurve = s.capitalCurve := by
  simp only [RTB.TrailingStopStrategy.stopPhase]
  split_ifs <;> rfl

/-- The entry block does not touch the daily cursor. -/
theorem RTB.TrailingStopStrategy.entryStep_days (slPct : ℚ) (s : DualState) (d : Bar) :
    (RTB.TrailingStopStrategy.entryStep slPct s d).days = s.days := by
  simp only [RTB.TrailingStopStrategy.entryStep]
  split_ifs <;> rfl

/-- The entry block does not touch the capital curve. -/
theorem RTB.TrailingStopStrategy.entryStep_curve (slPct : ℚ) (s : DualState) (d : Bar) :
    (RTB.TrailingStopStrategy.entryStep slPct s d).capitalCurve = s.capitalCurve := by
  simp only [RTB.TrailingStopStrategy.entryStep]
  split_ifs <;> rfl

/-- How one hourly step moves the daily cursor: it consumes the front daily
bar exactly when the hourly timestamp matches it. -/
theorem RTB.TrailingStopStrategy.step_days (slPct : ℚ) (s : DualState) (b : Bar) :
    (RTB.TrailingStopStrategy.step slPct s b).days
      = match s.days with
        | [] => []
        | d :: rest => if b.openTime = d.openTime then rest else d :: rest := by
  unfold RTB.TrailingStopStrategy.step RTB.TrailingStopStrategy.dayPhase
  rw [RTB.TrailingStopStrategy.stopPhase_days]
  rcases hd : s.days with _ | ⟨d, rest⟩
  · exact (RTB.TrailingStopStrategy.stopPhase_days slPct s b).trans hd
  · dsimp only
    by_cases hts : b.openTime = d.openTime
    · rw [if_pos hts, if_pos hts]
    · rw [if_neg hts, if_neg hts]
      exact (RTB.TrailingStopStrategy.stopPhase_days slPct s b).trans hd

/-- One hourly step conserves `capital_curve length + remaining daily bars`:
an entry is appended to the curve exactly when a daily bar is consumed. -/
theorem RTB.TrailingStopStrategy.step_count (slPct : ℚ) (s : DualState) (b : Bar) :
    (RTB.TrailingStopStrategy.step slPct s b).capitalCurve.length
      + (RTB.TrailingStopStrategy.step slPct s b).days.length
      = s.capitalCurve.length + s.days.length := by
  unfold RTB.TrailingStopStrategy.step RTB.TrailingStopStrategy.dayPhase
  rw [RTB.TrailingStopStrategy.stopPhase_days]
  rcases hd : s.days with _ | ⟨d, rest⟩
  · simp [RTB.TrailingStopStrategy.stopPhase_days,
      RTB.TrailingStopStrategy.stopPhase_curve, hd]
  · dsimp only
    by_cases hts : b.openTime = d.openTime
    · rw [if_pos hts]
      simp [RTB.TrailingStopStrategy.entryStep_curve,
        RTB.TrailingStopStrategy.stopPhase_curve, List.length_append]
      omega
    · rw [if_neg hts]
      simp [RTB.TrailingStopStrategy.stopPhase_days,
        RTB.TrailingStopStrategy.stopPhase_curve, hd]

theorem trailing_run_curve_length (slPct tsPct : ℚ) (data : List Bar) (s : TSState) :
    (data.foldl (TrailingStopStrategy.step slPct tsPct) s).capitalCurve.length
      = s.capitalCurve.length + data.length :=
  foldl_measure_succ _ (fun s => s.capitalCurve.length)
    (fun s b => trailing_step_curve_length slPct tsPct s b) data s

theorem simple_run_curve_length (data : List Bar) (s : TSState) :
    (data.foldl SimpleStrategy.step s).capitalCurve.length
      = s.capitalCurve.length + data.length :=
  foldl_measure_succ _ (fun s => s.capitalCurve.length)
    (fun s b => simple_step_curve_length s b) data s

theorem rtb_simple_run_curve_length (data : List Bar) (s : TSState) :
    (data.foldl RTB.SimpleStrategy.step s).capitalCurve.length
      = s.capitalCurve.length + data.length :=
  foldl_measure_succ _ (fun s => s.capitalCurve.length)
    (fun s b => rtb_simple_step_curve_length s b) data s

/-- Along the whole hourly fold, curve length plus remaining daily bars is
conserved. -/
theorem RTB.TrailingStopStrategy.run_count (slPct : ℚ) (hourData : List Bar) (s : DualState) :
    (hourData.foldl (RTB.TrailingStopStrategy.step slPct) s).capitalCurve.length
      + (hourData.foldl (RTB.TrailingStopStrategy.step slPct) s).days.length
      = s.capitalCurve.length + s.days.length :=
  foldl_measure_const _ (fun s => s.capitalCurve.length + s.days.length)
    (fun s b => RTB.TrailingStopStrategy.step_count slPct s b) hourData s

/-- Greedy cursor consumption: when the timestamps of the remaining daily
bars occur, in order, among the hourly timestamps still to be walked, the
hourly fold consumes the whole daily cursor. -/
theorem RTB.TrailingStopStrategy.run_days_nil (slPct : ℚ) :
    ∀ (hourData : List Bar) (s : DualState),
      List.Sublist (s.days.map Bar.openTime) (hourData.map Bar.openTime) →
      (hourData.foldl (RTB.TrailingStopStrategy.step slPct) s).days = [] := by
  intro hourData
  induction hourData with
  | nil =>
    intro s hsub
    have h0 : s.days.map Bar.openTime = [] := List.sublist_nil.mp (by simpa using hsub)
    simpa using List.map_eq_nil_iff.mp h0
  | cons b hs ih =>
    intro s hsub
    rw [List.foldl_cons]
    apply ih
    rw [RTB.TrailingStopStrategy.step_days]
    rcases hd : s.days with _ | ⟨d, rest⟩
    · simp
    · rw [hd] at hsub
      simp only [List.map_cons] at hsub
      rw [List.cons_sublist_cons'] at hsub
      dsimp only
      by_cases hts : b.openTime = d.openTime
      · rw [if_pos hts]
        rcases hsub with h | ⟨_, h⟩
        · exact (List.sublist_cons_self _ _).trans h
        · exact h
      · rw [if_neg hts]
        rcases hsub with h | ⟨heq, _⟩
        · exact h
        · exact absurd heq.symm hts

/-! ## C3 — alignment errors in the dual-resolution variant -/

/-- Daily bars at hours 0, 24 and 48 (spec §8 scenario), no Buy signals. -/
def exC3Day : List Bar :=
  [⟨0, 100, 100, 100, 100, false, false⟩,
   ⟨24, 100, 100, 100, 100, false, false⟩,
   ⟨48, 100, 100, 100, 100, false, false⟩]

/-- An hourly series deliberately truncated before hour 48. -/
def exC3Hour : List Bar :=
  [⟨0, 100, 100, 100, 100, false, false⟩,
   ⟨1, 100, 100, 100, 100, false, false⟩,
   ⟨23, 100, 100, 100, 100, false, false⟩,
   ⟨24, 100, 100, 100, 100, false, false⟩,
   ⟨47, 100, 100, 100, 100, false, false⟩]

/-- C3, counterexample.  The claim says a daily bar with no matching hourly
timestamp makes the simulation fail with a distinct AlignmentError.  In the
code there is no such error: on daily bars 0/24/48 with the hourly series
truncated before hour 48, `apply` returns an ordinary `InvestResult` whose
capital curve silently covers only the 2 matched daily bars out of 3. -/
theorem C3_counterexample :
    RTB.TrailingStopStrategy.apply (1/5) (1/1000) exC3Day exC3Hour 1000
      = ⟨1000, 1000, 0, 0, 0, [1000, 1000]⟩ ∧
    exC3Day.length = 3 := by
  constructor
  · norm_num [exC3Day, exC3Hour, RTB.TrailingStopStrategy.apply,
      RTB.TrailingStopStrategy.step, RTB.TrailingStopStrategy.stopPhase,
      RTB.TrailingStopStrategy.dayPhase, RTB.TrailingStopStrategy.entryStep,
    DualState.init]
  · rfl

/-- C3, amended.  The dual-resolution variant performs no alignment check
and raises no error: for every input, the run returns normally and the
capital curve has one entry per *consumed* daily bar — daily bars whose
timestamp is never matched by an hourly bar stay in the cursor and are
silently skipped (`curve length + unconsumed daily bars = daily bars`). -/
theorem C3_silent_truncation (slPct tsPct cap : ℚ) (dayData hourData : List Bar) :
    (RTB.TrailingStopStrategy.apply slPct tsPct dayData hourData cap).capital_curve.length
      + (hourData.foldl (RTB.TrailingStopStrategy.step slPct)
          (DualState.init cap dayData)).days.length
      = dayData.length := by
  have h := RTB.TrailingStopStrategy.run_count slPct hourData (DualState.init cap dayData)
  simpa [RTB.TrailingStopStrategy.apply, DualState.init] using h

/-! ## C4 — input validation -/

/-- C4, counterexample.  The claim says applying any strategy to an empty
series fails fast, and a starting capital ≤ 0 is rejected at construction.
Neither happens: on an empty series `SimpleStrategy.apply` returns the
degenerate result (capital unchanged, empty curve), and
`TrailingStopStrategy` built over capital −5 runs without any rejection. -/
theorem C4_counterexample :
    SimpleStrategy.apply [] 1000 = ⟨1000, 1000, 0, 0, 0, []⟩ ∧
    TrailingStopStrategy.apply (1/5) (1/1000) [] (-5) = ⟨-5, -5, 0, 0, 0, []⟩ :=
  ⟨rfl, rfl⟩

/-- C4, amended.  The strategies perform no input validation: any starting
capital is accepted at construction; on an empty series `SimpleStrategy` and
`TrailingStopStrategy` return a degenerate `InvestResult` (capital_end =
capital_start, no positions, no fees, empty curve) instead of failing, and
only `NoStrategy` fails (out-of-bounds access on the first bar).  A
non-positive capital is rejected only by `InvestResult`'s pydantic field
validation once `apply` builds its result. -/
theorem C4_no_validation :
    (∀ cap : ℚ, SimpleStrategy.apply [] cap = ⟨cap, cap, 0, 0, 0, []⟩) ∧
    (∀ slPct tsPct cap : ℚ,
      TrailingStopStrategy.apply slPct tsPct [] cap = ⟨cap, cap, 0, 0, 0, []⟩) ∧
    (∀ cap : ℚ, NoStrategy.apply [] cap = none) ∧
    (∀ cap : ℚ, cap ≤ 0 → ¬ (SimpleStrategy.apply [] cap).Valid) := by
  refine ⟨fun cap => rfl, fun slPct tsPct cap => rfl, fun cap => rfl, fun cap hc hv => ?_⟩
  simp only [InvestResult.Valid] at hv
  have h1 : (0 : ℚ) < cap := hv.1
  linarith

/-- C4, witness for the hypothesis of the last conjunct. -/
theorem C4_witness : (-5 : ℚ) ≤ 0 ∧ ¬ (SimpleStrategy.apply [] (-5)).Valid :=
  ⟨by norm_num, C4_no_validation.2.2.2 (-5) (by norm_num)⟩

/-! ## C7 — NoStrategy as a two-fee round trip -/

/-- C7, confirmed.  For a non-empty series with positive closes and positive
starting capital, `NoStrategy.apply` realizes exactly
`capital_start × 0.999 × (pₙ/p₀) × 0.999` (exact in ℚ). -/
theorem C7_no_strategy_round_trip (first : Bar) (rest : List Bar) (cap : ℚ)
    (hpos : ∀ b ∈ first :: rest, 0 < b.closePrice) (_hcap : 0 < cap) :
    (NoStrategy.apply (first :: rest) cap).map InvestResult.capital_end
      = some (cap * (999 / 1000) * ((rest.getLastD first).closePrice / first.closePrice)
          * (999 / 1000)) := by
  have hne : first.closePrice ≠ 0 := ne_of_gt (hpos first (List.mem_cons_self _ _))
  simp only [NoStrategy.apply, Option.map_some']
  congr 1
  ring

/-- C7, witness: closes 100 then 130, capital 1000 end up at
`1000 × 0.999 × 1.3 × 0.999 = 1297.4013`. -/
theorem C7_witness :
    (NoStrategy.apply
        [⟨0, 100, 100, 100, 100, false, false⟩, ⟨1, 130, 130, 130, 130, false, false⟩]
        1000).map InvestResult.capital_end = some (12974013 / 10000) := by
  have h := C7_no_strategy_round_trip ⟨0, 100, 100, 100, 100, false, false⟩
    [⟨1, 130, 130, 130, 130, false, false⟩] 1000
    (by norm_num [List.forall_mem_cons]) (by norm_num)
  norm_num [List.getLastD] at h
  convert h using 2
  norm_num

/-! ## Extra rfl facts about mark-to-market -/

theorem TSState.markToMarket_stopLoss (s : TSState) (c : ℚ) :
    (s.markToMarket c).stopLoss = s.stopLoss := rfl

theorem TSState.markToMarket_trailingStop (s : TSState) (c : ℚ) :
    (s.markToMarket c).trailingStop = s.trailingStop := rfl

/-! ## C1 — the drawdown field of the dual-resolution variant -/

/-- Daily bars: Buy at close 100 on hour 0, then close 50 on hour 24. -/
def exC1Day : List Bar :=
  [⟨0, 100, 100, 100, 100, true, false⟩,
   ⟨24, 50, 50, 50, 50, false, false⟩]

/-- Matching hourly bars with the same closes. -/
def exC1Hour : List Bar :=
  [⟨0, 100, 100, 100, 100, false, false⟩,
   ⟨24, 50, 50, 50, 50, false, false⟩]

/-- C1, code bug.  The dual-resolution `TrailingStopStrategy.apply`
(src/road_to_billions/strategy.py line 125) returns the literal `0` as the
result's drawdown, discarding the running maximum of
`(peak − current_capital)/peak` that its own loop computed (lines 118–122):
on a run that buys at 100 and is stopped out around 50 the loop's running
max is 251999/1250000 ≈ 0.2016, yet the returned field is 0. -/
theorem C1_dual_drawdown_field_bug :
    (RTB.TrailingStopStrategy.apply (1/5) (1/1000) exC1Day exC1Hour 1000).drawdown = 0 ∧
    (exC1Hour.foldl (RTB.TrailingStopStrategy.step (1/5))
        (DualState.init 1000 exC1Day)).drawdown = 251999 / 1250000 ∧
    (251999 / 1250000 : ℚ) ≠ 0 := by
  refine ⟨rfl, ?_, by norm_num⟩
  norm_num [exC1Day, exC1Hour, RTB.TrailingStopStrategy.step,
    RTB.TrailingStopStrategy.stopPhase, RTB.TrailingStopStrategy.dayPhase,
    RTB.TrailingStopStrategy.entryStep, DualState.init]

/-! ## C2 — which prices the dual-resolution stop logic reads -/

/-- A single daily bar with a Buy at close 100. -/
def exC2Day : List Bar := [⟨0, 100, 100, 100, 100, true, false⟩]

/-- The matching hourly bar. -/
def exC2F0 : Bar := ⟨0, 100, 100, 100, 100, false, false⟩

/-- A later hourly bar: high 200, low 70, close 90. -/
def exC2F1 : Bar := ⟨1, 90, 200, 70, 90, false, false⟩

/-- The LONG state after the entry hour. -/
def exC2S1 : DualState :=
  RTB.TrailingStopStrategy.step (1/5) (DualState.init 1000 exC2Day) exC2F0

/-- C2, counterexample.  The claim says the fine-bar stop logic raises the
stop from the bar's *high* when it exceeds a trailing trigger and detects a
breach when the bar's *low* falls below the stop.  On a LONG state with
stop 80, an hourly bar with high 200 / low 70 / close 90 does neither in the
code: the position survives (no exit although low < stop) and the stop stays
at 80 (not raised although the high exceeds any trigger) because the code
reads only the hourly close. -/
theorem C2_counterexample :
    exC2S1.positions ≠ 0 ∧
    exC2S1.stopLoss = 80 ∧
    exC2F1.lowPrice < exC2S1.stopLoss ∧
    exC2S1.stopLoss < exC2F1.highPrice ∧
    (RTB.TrailingStopStrategy.step (1/5) exC2S1 exC2F1).positions = exC2S1.positions ∧
    (RTB.TrailingStopStrategy.step (1/5) exC2S1 exC2F1).stopLoss = exC2S1.stopLoss := by
  norm_num [exC2S1, exC2Day, exC2F0, exC2F1, RTB.TrailingStopStrategy.step,
    RTB.TrailingStopStrategy.stopPhase, RTB.TrailingStopStrategy.dayPhase,
    RTB.TrailingStopStrategy.entryStep, DualState.init]

/-- C2, amended.  While LONG, on every hourly bar the stop-loss block of the
dual-resolution variant ratchets the stop unconditionally to
`max(stop_loss, close × (1 − stop_loss_pct))` using the bar's *close*, a
breach fires iff the *close* is below that ratcheted stop, and the block is
insensitive to every other field of the bar (high and low included); there
is no trailing-trigger level. -/
theorem C2_fine_stop_logic_uses_close (slPct : ℚ) (s : DualState) (b : Bar)
    (h : s.positions ≠ 0) :
    (RTB.TrailingStopStrategy.stopPhase slPct s b).stopLoss
      = max s.stopLoss (b.closePrice * (1 - slPct)) ∧
    ((RTB.TrailingStopStrategy.stopPhase slPct s b).positions = 0 ↔
      b.closePrice < max s.stopLoss (b.closePrice * (1 - slPct))) ∧
    ∀ b' : Bar, b'.closePrice = b.closePrice →
      RTB.TrailingStopStrategy.stopPhase slPct s b'
        = RTB.TrailingStopStrategy.stopPhase slPct s b := by
  refine ⟨?_, ?_, ?_⟩
  · simp only [RTB.TrailingStopStrategy.stopPhase, if_pos h]
    split_ifs <;> rfl
  · simp only [RTB.TrailingStopStrategy.stopPhase, if_pos h]
    split_ifs with hlt
    · simp [hlt]
    · simp [hlt, h]
  · intro b' hb'
    simp only [RTB.TrailingStopStrategy.stopPhase, hb']

/-- C2, witness: a LONG state with stop 80 against the high-200/low-70
hourly bar. -/
theorem C2_witness :
    (⟨0, 999/100, 1, 1000, 1/1000, 80, 999, [999], []⟩ : DualState).positions ≠ 0 ∧
    (RTB.TrailingStopStrategy.stopPhase (1/5)
        ⟨0, 999/100, 1, 1000, 1/1000, 80, 999, [999], []⟩ exC2F1).stopLoss
      = max 80 (exC2F1.closePrice * (1 - 1/5)) := by
  have h : (⟨0, 999/100, 1, 1000, 1/1000, 80, 999, [999], []⟩ : DualState).positions ≠ 0 := by
    norm_num
  exact ⟨h, (C2_fine_stop_logic_uses_close (1/5) _ exC2F1 h).1⟩

/-! ## C5 — ratchet / stop-exit interplay in the wayne variant -/

/-- Entry bar: Buy at close 100. -/
def exC5Entry : Bar := ⟨0, 100, 100, 100, 100, true, false⟩

/-- Next bar: high 150 (above the trigger), low 70 (below the stop 80). -/
def exC5Bar1 : Bar := ⟨1, 90, 150, 70, 90, false, false⟩

/-- The LONG state after the entry bar (stop 80, trigger 100.1). -/
def exC5S1 : TSState :=
  TrailingStopStrategy.step (1/5) (1/1000) (TSState.init 1000) exC5Entry

/-- C5, counterexample.  The claim says the ratchet happens only when the
bar's price has not breached the current stop-loss.  In the code the ratchet
branch is checked first: on a bar whose low 70 breaches the stop 80 while
its high 150 exceeds the trigger, the stop is still ratcheted (80 → 120) and
no exit happens. -/
theorem C5_counterexample :
    exC5S1.positions ≠ 0 ∧
    exC5S1.stopLoss = 80 ∧
    exC5Bar1.lowPrice < exC5S1.stopLoss ∧
    (TrailingStopStrategy.step (1/5) (1/1000) exC5S1 exC5Bar1).stopLoss = 120 ∧
    (TrailingStopStrategy.step (1/5) (1/1000) exC5S1 exC5Bar1).positions
      = exC5S1.positions := by
  norm_num [exC5S1, exC5Entry, exC5Bar1, TrailingStopStrategy.step,
    TrailingStopStrategy.trade, TSState.markToMarket, TSState.init]

/-- C5, amended.  A ratchet update and a stop-loss exit are indeed mutually
exclusive within one bar, but by branch priority, not because the ratchet
checks the stop: while LONG, if the bar's high exceeds the trigger the
ratchet fires and the position is kept (no exit, whatever the low); only
otherwise does a low below the stop trigger the exit, which leaves the stop
level untouched. -/
theorem C5_ratchet_exit_exclusive (slPct tsPct : ℚ) (s : TSState) (b : Bar)
    (h : s.positions ≠ 0) :
    (s.trailingStop < b.highPrice →
      (TrailingStopStrategy.step slPct tsPct s b).positions = s.positions ∧
      (TrailingStopStrategy.step slPct tsPct s b).stopLoss = b.highPrice * (1 - slPct) ∧
      (TrailingStopStrategy.step slPct tsPct s b).capital = s.capital) ∧
    (¬ s.trailingStop < b.highPrice → b.lowPrice < s.stopLoss →
      (TrailingStopStrategy.step slPct tsPct s b).positions = 0 ∧
      (TrailingStopStrategy.step slPct tsPct s b).stopLoss = s.stopLoss) := by
  constructor
  · intro hr
    simp only [TrailingStopStrategy.step, TSState.markToMarket_positions,
      TSState.markToMarket_stopLoss, TSState.markToMarket_capital]
    simp [TrailingStopStrategy.trade, h, hr]
  · intro hr hx
    simp only [TrailingStopStrategy.step, TSState.markToMarket_positions,
      TSState.markToMarket_stopLoss]
    simp [TrailingStopStrategy.trade, h, hr, hx]

/-- C5, witness: the post-entry state against the high-150/low-70 bar. -/
theorem C5_witness :
    (⟨0, 999/100, 1, 1000, 1/1000, 80, 1001/10, 999, [999]⟩ : TSState).positions ≠ 0 ∧
    ((⟨0, 999/100, 1, 1000, 1/1000, 80, 1001/10, 999, [999]⟩ : TSState).trailingStop
        < exC5Bar1.highPrice →
      (TrailingStopStrategy.step (1/5) (1/1000)
          ⟨0, 999/100, 1, 1000, 1/1000, 80, 1001/10, 999, [999]⟩ exC5Bar1).positions
        = (⟨0, 999/100, 1, 1000, 1/1000, 80, 1001/10, 999, [999]⟩ : TSState).positions ∧
      (TrailingStopStrategy.step (1/5) (1/1000)
          ⟨0, 999/100, 1, 1000, 1/1000, 80, 1001/10, 999, [999]⟩ exC5Bar1).stopLoss
        = exC5Bar1.highPrice * (1 - 1/5) ∧
      (TrailingStopStrategy.step (1/5) (1/1000)
          ⟨0, 999/100, 1, 1000, 1/1000, 80, 1001/10, 999, [999]⟩ exC5Bar1).capital
        = (⟨0, 999/100, 1, 1000, 1/1000, 80, 1001/10, 999, [999]⟩ : TSState).capital) := by
  have h : (⟨0, 999/100, 1, 1000, 1/1000, 80, 1001/10, 999, [999]⟩ : TSState).positions ≠ 0 := by
    norm_num
  exact ⟨h, (C5_ratchet_exit_exclusive (1/5) (1/1000) _ exC5Bar1 h).1⟩

/-! ## C6 — stop-loss exits execute at the stop price -/

/-- The LONG state of the claim's example: entry at close 100 with
`stop_loss_pct = 0.20` (stop 80, trigger 100.1, positions 9.99). -/
def exC6S : TSState := ⟨0, 999/100, 1, 1000, 1/1000, 80, 1001/10, 999, [999]⟩

/-- The claim's later bar: low 75 while the high never exceeds the
trigger. -/
def exC6Bar : Bar := ⟨1, 90, 100, 75, 90, false, false⟩

/-- C6, confirmed.  When the stop-loss exit fires in the wayne
trailing-stop strategy, the exit executes at the stop price: cash becomes
positions × stop_loss × 0.999, the fee positions × stop_loss × 0.001 is
added to the platform fees, and positions reset to 0. -/
theorem C6_stop_exit_at_stop_price (slPct tsPct : ℚ) (s : TSState) (b : Bar)
    (h : s.positions ≠ 0) (hr : ¬ s.trailingStop < b.highPrice)
    (hx : b.lowPrice < s.stopLoss) :
    (TrailingStopStrategy.step slPct tsPct s b).capital
        = s.positions * s.stopLoss * (999 / 1000) ∧
    (TrailingStopStrategy.step slPct tsPct s b).platformFees
        = s.platformFees + s.positions * s.stopLoss * (1 / 1000) ∧
    (TrailingStopStrategy.step slPct tsPct s b).positions = 0 := by
  simp only [TrailingStopStrategy.step, TSState.markToMarket_capital,
    TSState.markToMarket_platformFees, TSState.markToMarket_positions]
  simp [TrailingStopStrategy.trade, h, hr, hx]

/-- C6, witness: the claim's own numbers — entry at 100, stop 80, bar low
75; the exit executes at 80, cash = 9.99 × 80 × 0.999. -/
theorem C6_witness :
    exC6S.positions ≠ 0 ∧
    ¬ exC6S.trailingStop < exC6Bar.highPrice ∧
    exC6Bar.lowPrice < exC6S.stopLoss ∧
    (TrailingStopStrategy.step (1/5) (1/1000) exC6S exC6Bar).capital
      = 999/100 * 80 * (999/1000) := by
  refine ⟨by norm_num [exC6S], by norm_num [exC6S, exC6Bar],
    by norm_num [exC6S, exC6Bar], ?_⟩
  exact (C6_stop_exit_at_stop_price (1/5) (1/1000) exC6S exC6Bar
    (by norm_num [exC6S]) (by norm_num [exC6S, exC6Bar])
    (by norm_num [exC6S, exC6Bar])).1

/-! ## C9 — batch ranking of symbols -/

/-- A result with profit 1, used by the ranking counterexample. -/
def exC9R : InvestResult := ⟨1, 2, 0, 0, 0, []⟩

/-- Two symbols with equal profit, in descending symbol order. -/
def exC9 : List (String × InvestResult) := [("B", exC9R), ("A", exC9R)]

/-- C9, counterexample.  `evaluate_symbols` sorts only by profit
(`results.sort(key=lambda result: result[1].profit, reverse=True)`); the
sort is stable, so equal-profit entries keep their input order.  On the tied
input [("B", r), ("A", r)] the code keeps B before A, not the
symbol-ascending order the claim requires. -/
theorem C9_counterexample :
    evaluateSymbolsRank exC9 = [("B", exC9R), ("A", exC9R)] ∧
    specRank exC9 = [("A", exC9R), ("B", exC9R)] ∧
    evaluateSymbolsRank exC9 ≠ specRank exC9 := by
  have e1 : evaluateSymbolsRank exC9 = [("B", exC9R), ("A", exC9R)] := by
    simp +decide [evaluateSymbolsRank, profitGe, exC9, InvestResult.profit, exC9R]
  have e2 : specRank exC9 = [("A", exC9R), ("B", exC9R)] := by
    simp +decide [specRank, specRankRel, exC9, InvestResult.profit, exC9R,
      String.le_iff_toList_le]
  refine ⟨e1, e2, ?_⟩
  rw [e1, e2]
  simp +decide [exC9R]

/-- C9, amended.  Batch ranking returns a permutation of its input sorted by
profit in descending order; equal-profit entries are left in input order
(stability of the sort), not re-ordered by symbol name. -/
theorem C9_rank_profit_descending :
    (∀ l : List (String × InvestResult), (evaluateSymbolsRank l).Perm l) ∧
    (∀ l : List (String × InvestResult), List.Sorted profitGe (evaluateSymbolsRank l)) ∧
    (∀ (a b : String × InvestResult) (l : List (String × InvestResult)),
      profitGe a b → List.Sublist [a, b] l →
      List.Sublist [a, b] (evaluateSymbolsRank l)) :=
  ⟨fun l => List.perm_insertionSort profitGe l,
   fun l => List.sorted_insertionSort profitGe l,
   fun _ _ _ hab hsub => List.pair_sublist_insertionSort hab hsub⟩

/-- C9, witness for the stability conjunct: the tied pair stays in input
order. -/
theorem C9_witness :
    profitGe ("B", exC9R) ("A", exC9R) ∧
    List.Sublist [("B", exC9R), ("A", exC9R)] exC9 ∧
    List.Sublist [("B", exC9R), ("A", exC9R)] (evaluateSymbolsRank exC9) := by
  have hab : profitGe ("B", exC9R) ("A", exC9R) := by simp [profitGe]
  have hsub : List.Sublist [("B", exC9R), ("A", exC9R)] exC9 :=
    show List.Sublist [("B", exC9R), ("A", exC9R)] [("B", exC9R), ("A", exC9R)] from
      List.Sublist.refl _
  exact ⟨hab, hsub, C9_rank_profit_descending.2.2 _ _ _ hab hsub⟩

/-! ## C8 — one capital-curve entry per visited bar -/

theorem nostrategy_run_curve_length (positions : ℚ) (data : List Bar) (s : MarkState) :
    (data.foldl (NoStrategy.markStep positions) s).capitalCurve.length
      = s.capitalCurve.length + data.length :=
  foldl_measure_succ _ (fun s => s.capitalCurve.length)
    (fun s row => by simp [NoStrategy.markStep]) data s

/-- A single daily bar at hour 0. -/
def exC8Day : List Bar := [⟨0, 100, 100, 100, 100, false, false⟩]

/-- A non-empty hourly series that never matches it. -/
def exC8Hour : List Bar := [⟨1, 100, 100, 100, 100, false, false⟩]

/-- C8, counterexample.  The claim says the capital curve is never empty for
a non-empty input and has one entry per coarse bar in the dual-resolution
variant.  With one daily bar at hour 0 and one (mismatched) hourly bar at
hour 1 — both series non-empty — the returned curve is empty. -/
theorem C8_counterexample :
    exC8Day ≠ [] ∧ exC8Hour ≠ [] ∧
    (RTB.TrailingStopStrategy.apply (1/5) (1/1000) exC8Day exC8Hour
        1000).capital_curve = [] := by
  refine ⟨by simp [exC8Day], by simp [exC8Hour], ?_⟩
  norm_num [exC8Day, exC8Hour, RTB.TrailingStopStrategy.apply,
    RTB.TrailingStopStrategy.step, RTB.TrailingStopStrategy.stopPhase,
    RTB.TrailingStopStrategy.dayPhase, RTB.TrailingStopStrategy.entryStep,
    DualState.init]

/-- C8, amended.  Every single-resolution strategy produces exactly one
capital-curve entry per input bar (hence a non-empty curve on non-empty
input); the dual-resolution variant produces one entry per *matched* daily
bar, which is one per daily bar exactly when the daily timestamps are a
subsequence of the hourly timestamps (the pre-aligned-input assumption). -/
theorem C8_capital_curve_length :
    (∀ (slPct tsPct cap : ℚ) (data : List Bar),
      (TrailingStopStrategy.apply slPct tsPct data cap).capital_curve.length
        = data.length) ∧
    (∀ (cap : ℚ) (data : List Bar),
      (SimpleStrategy.apply data cap).capital_curve.length = data.length) ∧
    (∀ (cap : ℚ) (data : List Bar),
      (RTB.SimpleStrategy.apply data cap).capital_curve.length = data.length) ∧
    (∀ (cap : ℚ) (first : Bar) (rest : List Bar),
      (NoStrategy.apply (first :: rest) cap).map (fun r => r.capital_curve.length)
        = some (rest.length + 1)) ∧
    (∀ (slPct tsPct cap : ℚ) (dayData hourData : List Bar),
      List.Sublist (dayData.map Bar.openTime) (hourData.map Bar.openTime) →
      (RTB.TrailingStopStrategy.apply slPct tsPct dayData hourData
          cap).capital_curve.length = dayData.length) := by
  refine ⟨?_, ?_, ?_, ?_, ?_⟩
  · intro slPct tsPct cap data
    simpa [TrailingStopStrategy.apply, TSState.init] using
      trailing_run_curve_length slPct tsPct data (TSState.init cap)
  · intro cap data
    simpa [SimpleStrategy.apply, TSState.init] using
      simple_run_curve_length data (TSState.init cap)
  · intro cap data
    simpa [RTB.SimpleStrategy.apply, TSState.init] using
      rtb_simple_run_curve_length data (TSState.init cap)
  · intro cap first rest
    simp only [NoStrategy.apply, Option.map_some']
    rw [nostrategy_run_curve_length]
    simp
  · intro slPct tsPct cap dayData hourData hsub
    have h1 := RTB.TrailingStopStrategy.run_count slPct hourData
      (DualState.init cap dayData)
    have h2 := RTB.TrailingStopStrategy.run_days_nil slPct hourData
      (DualState.init cap dayData) (by simpa [DualState.init] using hsub)
    rw [h2] at h1
    simp only [RTB.TrailingStopStrategy.apply]
    simpa [DualState.init] using h1

/-- C8, witness for the dual-resolution conjunct: one daily bar at hour 0,
hourly bars at hours 0 and 1. -/
theorem C8_witness :
    List.Sublist (exC8Day.map Bar.openTime) ((exC8Day ++ exC8Hour).map Bar.openTime) ∧
    (RTB.TrailingStopStrategy.apply (1/5) (1/1000) exC8Day (exC8Day ++ exC8Hour)
        1000).capital_curve.length = exC8Day.length := by
  have hsub : List.Sublist (exC8Day.map Bar.openTime)
      ((exC8Day ++ exC8Hour).map Bar.openTime) := by
    rw [List.map_append]
    exact List.sublist_append_left _ _
  exact ⟨hsub, C8_capital_curve_length.2.2.2.2 (1/5) (1/1000) 1000 _ _ hsub⟩

/-! ## C10 — simulation-state invariants -/

/-- Positivity of the price fields the strategies read. -/
def PosBar (b : Bar) : Prop :=
  0 < b.highPrice ∧ 0 < b.lowPrice ∧ 0 < b.closePrice

/-- The claimed per-bar state invariant of the single-resolution loops:
non-negative positions and cash, and all-in while LONG. -/
def TSState.Inv (s : TSState) : Prop :=
  0 ≤ s.positions ∧ 0 ≤ s.capital ∧ (0 < s.positions → s.capital = 0)

/-- The claimed per-bar state invariant of the dual-resolution loop, plus
positivity of the daily closes still to be consumed (needed for entries). -/
def DualState.Inv (s : DualState) : Prop :=
  0 ≤ s.positions ∧ 0 ≤ s.capital ∧ (0 < s.positions → s.capital = 0) ∧
  ∀ d ∈ s.days, 0 < d.closePrice

theorem trailing_step_inv (slPct tsPct : ℚ) (s : TSState) (b : Bar)
    (hb : PosBar b) (hs : s.Inv) :
    (TrailingStopStrategy.step slPct tsPct s b).Inv ∧
    s.platformFees ≤ (TrailingStopStrategy.step slPct tsPct s b).platformFees := by
  obtain ⟨hbh, hbl, hbc⟩ := hb
  obtain ⟨h1, h2, h3⟩ := hs
  simp only [TSState.Inv, TrailingStopStrategy.step, TSState.markToMarket_positions,
    TSState.markToMarket_capital, TSState.markToMarket_platformFees]
  unfold TrailingStopStrategy.trade
  split_ifs with hp hbuy hr hx
  · refine ⟨⟨mul_nonneg (div_nonneg hbuy.2.le hbc.le) (by norm_num), le_refl 0,
      fun _ => rfl⟩, ?_⟩
    show s.platformFees
        ≤ s.platformFees + s.capital / b.closePrice * b.closePrice * (1 / 1000)
    have h5 : 0 ≤ s.capital / b.closePrice * b.closePrice * (1 / 1000) :=
      mul_nonneg (mul_nonneg (div_nonneg hbuy.2.le hbc.le) hbc.le) (by norm_num)
    linarith
  · exact ⟨⟨h1, h2, h3⟩, le_refl _⟩
  · exact ⟨⟨h1, h2, h3⟩, le_refl _⟩
  · have hsl : (0 : ℚ) < s.stopLoss := lt_trans hbl hx
    refine ⟨⟨le_refl 0, mul_nonneg (mul_nonneg h1 hsl.le) (by norm_num),
      fun hlt0 => absurd hlt0 (lt_irrefl 0)⟩, ?_⟩
    show s.platformFees ≤ s.platformFees + s.positions * s.stopLoss * (1 / 1000)
    have h5 : 0 ≤ s.positions * s.stopLoss * (1 / 1000) :=
      mul_nonneg (mul_nonneg h1 hsl.le) (by norm_num)
    linarith
  · exact ⟨⟨h1, h2, h3⟩, le_refl _⟩

theorem simple_step_inv (s : TSState) (b : Bar)
    (hb : PosBar b) (hs : s.Inv) :
    (SimpleStrategy.step s b).Inv ∧
    s.platformFees ≤ (SimpleStrategy.step s b).platformFees := by
  obtain ⟨hbh, hbl, hbc⟩ := hb
  obtain ⟨h1, h2, h3⟩ := hs
  simp only [TSState.Inv, SimpleStrategy.step, TSState.markToMarket_positions,
    TSState.markToMarket_capital, TSState.markToMarket_platformFees]
  unfold SimpleStrategy.trade
  split_ifs with hp hbuy hsell
  · refine ⟨⟨mul_nonneg (div_nonneg hbuy.2.le hbc.le) (by norm_num), le_refl 0,
      fun _ => rfl⟩, ?_⟩
    show s.platformFees
        ≤ s.platformFees + s.capital / b.closePrice * b.closePrice * (1 / 1000)
    have h5 : 0 ≤ s.capital / b.closePrice * b.closePrice * (1 / 1000) :=
      mul_nonneg (mul_nonneg (div_nonneg hbuy.2.le hbc.le) hbc.le) (by norm_num)
    linarith
  · exact ⟨⟨h1, h2, h3⟩, le_refl _⟩
  · exact ⟨⟨h1, h2, h3⟩, le_refl _⟩
  · refine ⟨⟨le_refl 0, mul_nonneg (mul_nonneg h1 hbc.le) (by norm_num),
      fun hlt0 => absurd hlt0 (lt_irrefl (0 : ℚ))⟩, ?_⟩
    show s.platformFees ≤ s.platformFees + s.positions * b.closePrice * (1 / 1000)
    have h5 : 0 ≤ s.positions * b.closePrice * (1 / 1000) :=
      mul_nonneg (mul_nonneg h1 hbc.le) (by norm_num)
    linarith

theorem RTB.TrailingStopStrategy.stopPhase_inv (slPct : ℚ) (s : DualState) (b : Bar)
    (hbc : 0 < b.closePrice) (hs : s.Inv) :
    (RTB.TrailingStopStrategy.stopPhase slPct s b).Inv ∧
    s.platformFees ≤ (RTB.TrailingStopStrategy.stopPhase slPct s b).platformFees := by
  obtain ⟨h1, h2, h3, h4⟩ := hs
  simp only [DualState.Inv]
  simp only [RTB.TrailingStopStrategy.stopPhase]
  split_ifs with hp hlt
  · have hsl : (0 : ℚ) < max s.stopLoss (b.closePrice * (1 - slPct)) :=
      lt_trans hbc hlt
    refine ⟨⟨le_refl 0,
      mul_nonneg (mul_nonneg h1 hsl.le) (by norm_num),
      fun hlt0 => absurd hlt0 (lt_irrefl (0 : ℚ)), h4⟩, ?_⟩
    show s.platformFees ≤ s.platformFees
        + s.positions * max s.stopLoss (b.closePrice * (1 - slPct)) * (1 / 1000)
    have h5 : 0 ≤ s.positions * max s.stopLoss (b.closePrice * (1 - slPct)) * (1 / 1000) :=
      mul_nonneg (mul_nonneg h1 hsl.le) (by norm_num)
    linarith
  · exact ⟨⟨h1, h2, h3, h4⟩, le_refl _⟩
  · exact ⟨⟨h1, h2, h3, h4⟩, le_refl _⟩

theorem RTB.TrailingStopStrategy.entryStep_inv (slPct : ℚ) (s : DualState) (d : Bar)
    (hdc : 0 < d.closePrice) (hs : s.Inv) :
    (0 ≤ (RTB.TrailingStopStrategy.entryStep slPct s d).positions ∧
     0 ≤ (RTB.TrailingStopStrategy.entryStep slPct s d).capital ∧
     (0 < (RTB.TrailingStopStrategy.entryStep slPct s d).positions →
       (RTB.TrailingStopStrategy.entryStep slPct s d).capital = 0)) ∧
    s.platformFees ≤ (RTB.TrailingStopStrategy.entryStep slPct s d).platformFees := by
  obtain ⟨h1, h2, h3, h4⟩ := hs
  simp only [RTB.TrailingStopStrategy.entryStep]
  split_ifs with hp hbuy
  · refine ⟨⟨mul_nonneg (div_nonneg hbuy.2.le hdc.le) (by norm_num), le_refl 0,
      fun _ => rfl⟩, ?_⟩
    show s.platformFees
        ≤ s.platformFees + s.capital / d.closePrice * d.closePrice * (1 / 1000)
    have h5 : 0 ≤ s.capital / d.closePrice * d.closePrice * (1 / 1000) :=
      mul_nonneg (mul_nonneg (div_nonneg hbuy.2.le hdc.le) hdc.le) (by norm_num)
    linarith
  · exact ⟨⟨h1, h2, h3⟩, le_refl _⟩
  · exact ⟨⟨h1, h2, h3⟩, le_refl _⟩

theorem RTB.TrailingStopStrategy.dayPhase_inv (slPct : ℚ) (s : DualState) (b : Bar)
    (hs : s.Inv) :
    (RTB.TrailingStopStrategy.dayPhase slPct s b).Inv ∧
    s.platformFees ≤ (RTB.TrailingStopStrategy.dayPhase slPct s b).platformFees := by
  obtain ⟨h1, h2, h3, h4⟩ := hs
  simp only [DualState.Inv]
  unfold RTB.TrailingStopStrategy.dayPhase
  rcases hd : s.days with _ | ⟨d, rest⟩
  · exact ⟨⟨h1, h2, h3, h4⟩, le_refl _⟩
  · have hdc : 0 < d.closePrice := h4 d (by rw [hd]; exact List.mem_cons_self _ _)
    have h4rest : ∀ x ∈ rest, 0 < x.closePrice :=
      fun x hx => h4 x (by rw [hd]; exact List.mem_cons_of_mem _ hx)
    have he := RTB.TrailingStopStrategy.entryStep_inv slPct s d hdc ⟨h1, h2, h3, h4⟩
    dsimp only
    by_cases hts : b.openTime = d.openTime
    · rw [if_pos hts]
      exact ⟨⟨he.1.1, he.1.2.1, he.1.2.2, h4rest⟩, he.2⟩
    · rw [if_neg hts]
      exact ⟨⟨h1, h2, h3, h4⟩, le_refl _⟩

theorem rtb_trailing_step_inv (slPct : ℚ) (s : DualState) (b : Bar)
    (hbc : 0 < b.closePrice) (hs : s.Inv) :
    (RTB.TrailingStopStrategy.step slPct s b).Inv ∧
    s.platformFees ≤ (RTB.TrailingStopStrategy.step slPct s b).platformFees := by
  have ha := RTB.TrailingStopStrategy.stopPhase_inv slPct s b hbc hs
  have hb := RTB.TrailingStopStrategy.dayPhase_inv slPct
    (RTB.TrailingStopStrategy.stopPhase slPct s b) b ha.1
  exact ⟨hb.1, le_trans ha.2 hb.2⟩

theorem trailing_run_inv (slPct tsPct : ℚ) :
    ∀ (data : List Bar) (s : TSState), (∀ b ∈ data, PosBar b) → s.Inv →
      (data.foldl (TrailingStopStrategy.step slPct tsPct) s).Inv ∧
      s.platformFees
        ≤ (data.foldl (TrailingStopStrategy.step slPct tsPct) s).platformFees := by
  intro data
  induction data with
  | nil => exact fun s _ hs => ⟨hs, le_refl _⟩
  | cons b l ih =>
    intro s hb hs
    have hstep := trailing_step_inv slPct tsPct s b
      (hb b (List.mem_cons_self _ _)) hs
    have hrest := ih (TrailingStopStrategy.step slPct tsPct s b)
      (fun x hx => hb x (List.mem_cons_of_mem _ hx)) hstep.1
    exact ⟨hrest.1, le_trans hstep.2 hrest.2⟩

theorem simple_run_inv :
    ∀ (data : List Bar) (s : TSState), (∀ b ∈ data, PosBar b) → s.Inv →
      (data.foldl SimpleStrategy.step s).Inv ∧
      s.platformFees ≤ (data.foldl SimpleStrategy.step s).platformFees := by
  intro data
  induction data with
  | nil => exact fun s _ hs => ⟨hs, le_refl _⟩
  | cons b l ih =>
    intro s hb hs
    have hstep := simple_step_inv s b (hb b (List.mem_cons_self _ _)) hs
    have hrest := ih (SimpleStrategy.step s b)
      (fun x hx => hb x (List.mem_cons_of_mem _ hx)) hstep.1
    exact ⟨hrest.1, le_trans hstep.2 hrest.2⟩

theorem rtb_trailing_run_inv (slPct : ℚ) :
    ∀ (data : List Bar) (s : DualState), (∀ b ∈ data, 0 < b.closePrice) → s.Inv →
      (data.foldl (RTB.TrailingStopStrategy.step slPct) s).Inv ∧
      s.platformFees
        ≤ (data.foldl (RTB.TrailingStopStrategy.step slPct) s).platformFees := by
  intro data
  induction data with
  | nil => exact fun s _ hs => ⟨hs, le_refl _⟩
  | cons b l ih =>
    intro s hb hs
    have hstep := rtb_trailing_step_inv slPct s b
      (hb b (List.mem_cons_self _ _)) hs
    have hrest := ih (RTB.TrailingStopStrategy.step slPct s b)
      (fun x hx => hb x (List.mem_cons_of_mem _ hx)) hstep.1
    exact ⟨hrest.1, le_trans hstep.2 hrest.2⟩

/-- C10, confirmed.  In the wayne trailing-stop and simple strategies and in
the dual-resolution trailing-stop strategy, with positive prices and a
positive starting capital, after any prefix of the walked series the state
satisfies positions ≥ 0, cash ≥ 0 and (positions > 0 → cash = 0), and the
cumulative platform fees never decrease as more bars are processed. -/
theorem C10_state_invariants :
    (∀ (slPct tsPct cap : ℚ) (l₁ l₂ : List Bar), 0 < cap →
      (∀ b ∈ l₁ ++ l₂, PosBar b) →
      (l₁.foldl (TrailingStopStrategy.step slPct tsPct) (TSState.init cap)).Inv ∧
      (l₁.foldl (TrailingStopStrategy.step slPct tsPct) (TSState.init cap)).platformFees
        ≤ ((l₁ ++ l₂).foldl (TrailingStopStrategy.step slPct tsPct)
            (TSState.init cap)).platformFees) ∧
    (∀ (cap : ℚ) (l₁ l₂ : List Bar), 0 < cap → (∀ b ∈ l₁ ++ l₂, PosBar b) →
      (l₁.foldl SimpleStrategy.step (TSState.init cap)).Inv ∧
      (l₁.foldl SimpleStrategy.step (TSState.init cap)).platformFees
        ≤ ((l₁ ++ l₂).foldl SimpleStrategy.step (TSState.init cap)).platformFees) ∧
    (∀ (slPct cap : ℚ) (dayData l₁ l₂ : List Bar), 0 < cap →
      (∀ b ∈ l₁ ++ l₂, 0 < b.closePrice) → (∀ d ∈ dayData, 0 < d.closePrice) →
      (l₁.foldl (RTB.TrailingStopStrategy.step slPct)
        (DualState.init cap dayData)).Inv ∧
      (l₁.foldl (RTB.TrailingStopStrategy.step slPct)
          (DualState.init cap dayData)).platformFees
        ≤ ((l₁ ++ l₂).foldl (RTB.TrailingStopStrategy.step slPct)
            (DualState.init cap dayData)).platformFees) := by
  refine ⟨?_, ?_, ?_⟩
  · intro slPct tsPct cap l₁ l₂ hcap hb
    have hinit : (TSState.init cap).Inv :=
      ⟨le_refl 0, hcap.le, fun h => absurd h (lt_irrefl 0)⟩
    have hb1 : ∀ b ∈ l₁, PosBar b :=
      fun x hx => hb x (List.mem_append_left _ hx)
    have hb2 : ∀ b ∈ l₂, PosBar b :=
      fun x hx => hb x (List.mem_append_right _ hx)
    have hrun1 := trailing_run_inv slPct tsPct l₁ (TSState.init cap) hb1 hinit
    have hrun2 := trailing_run_inv slPct tsPct l₂
      (l₁.foldl (TrailingStopStrategy.step slPct tsPct) (TSState.init cap)) hb2 hrun1.1
    refine ⟨hrun1.1, ?_⟩
    rw [List.foldl_append]
    exact hrun2.2
  · intro cap l₁ l₂ hcap hb
    have hinit : (TSState.init cap).Inv :=
      ⟨le_refl 0, hcap.le, fun h => absurd h (lt_irrefl 0)⟩
    have hb1 : ∀ b ∈ l₁, PosBar b :=
      fun x hx => hb x (List.mem_append_left _ hx)
    have hb2 : ∀ b ∈ l₂, PosBar b :=
      fun x hx => hb x (List.mem_append_right _ hx)
    have hrun1 := simple_run_inv l₁ (TSState.init cap) hb1 hinit
    have hrun2 := simple_run_inv l₂
      (l₁.foldl SimpleStrategy.step (TSState.init cap)) hb2 hrun1.1
    refine ⟨hrun1.1, ?_⟩
    rw [List.foldl_append]
    exact hrun2.2
  · intro slPct cap dayData l₁ l₂ hcap hb hday
    have hinit : (DualState.init cap dayData).Inv :=
      ⟨le_refl 0, hcap.le, fun h => absurd h (lt_irrefl 0), hday⟩
    have hb1 : ∀ b ∈ l₁, 0 < b.closePrice :=
      fun x hx => hb x (List.mem_append_left _ hx)
    have hb2 : ∀ b ∈ l₂, 0 < b.closePrice :=
      fun x hx => hb x (List.mem_append_right _ hx)
    have hrun1 := rtb_trailing_run_inv slPct l₁
      (DualState.init cap dayData) hb1 hinit
    have hrun2 := rtb_trailing_run_inv slPct l₂
      (l₁.foldl (RTB.TrailingStopStrategy.step slPct) (DualState.init cap dayData))
      hb2 hrun1.1
    refine ⟨hrun1.1, ?_⟩
    rw [List.foldl_append]
    exact hrun2.2

/-- C10, witness: the wayne trailing-stop strategy over the concrete
entry/ratchet bars. -/
theorem C10_witness :
    (0 : ℚ) < 1000 ∧ (∀ b ∈ [exC5Entry] ++ [exC5Bar1], PosBar b) ∧
    (([exC5Entry].foldl (TrailingStopStrategy.step (1/5) (1/1000))
        (TSState.init 1000)).Inv ∧
      ([exC5Entry].foldl (TrailingStopStrategy.step (1/5) (1/1000))
          (TSState.init 1000)).platformFees
        ≤ (([exC5Entry] ++ [exC5Bar1]).foldl (TrailingStopStrategy.step (1/5) (1/1000))
            (TSState.init 1000)).platformFees) := by
  have hb : ∀ b ∈ [exC5Entry] ++ [exC5Bar1], PosBar b := by
    norm_num [List.forall_mem_cons, PosBar, exC5Entry, exC5Bar1]
  exact ⟨by norm_num, hb,
    C10_state_invariants.1 (1/5) (1/1000) 1000 [exC5Entry] [exC5Bar1] (by norm_num) hb⟩
